import Mathlib

/-!
# Verification of the CTR cleaning / drop-classification pipeline

Shallow embedding of the data-cleaning and drop-classification pipeline of
this repository (`src/cleaner.py`, `src/dashboard.py`).

Conventions of the embedding:
* pandas string cells are `Option String` (`NaN` = `none`); numeric cells
  produced by `pd.to_numeric(..., errors="coerce")` are `Option ℚ`
  (`NaN` = `none`).  Numeric literals of the Python source are modeled
  exactly as rationals.
* `pd.to_datetime(..., format=..., errors="coerce")` is modeled by a strict
  character-level parser returning `Option Date`.
* Where a float expression can hit a division by zero (pandas yields
  `inf`/`-inf`/`nan` instead of raising), the embedding uses the explicit
  value type `PctVal` with IEEE-style comparison behaviour, so that the
  classification logic is faithful also at those corner points.
-/

/-- A calendar date, as produced by `clean_timestamps` (`.dt.date`). -/
structure Date where
  y : Nat
  m : Nat
  d : Nat
deriving DecidableEq, Repr

/-- Gregorian leap-year rule, as used by `datetime.date` validation. -/
def isLeap (y : Nat) : Bool :=
  (y % 4 == 0 && y % 100 != 0) || y % 400 == 0

/-- Number of days of month `m` of year `y` (`datetime` calendar). -/
def daysInMonth (y m : Nat) : Nat :=
  if m = 2 then (if isLeap y then 29 else 28)
  else if m = 4 ∨ m = 6 ∨ m = 9 ∨ m = 11 then 30
  else 31

/-- Calendar validation performed by `datetime.date(y, m, d)`:
month in 1..12 and day in 1..daysInMonth. -/
def mkValidDate (y m d : Nat) : Option Date :=
  if 1 ≤ m ∧ m ≤ 12 ∧ 1 ≤ d ∧ d ≤ daysInMonth y m then some ⟨y, m, d⟩ else none

/-- Decimal digits of a field to its numeric value. -/
def digitsToNat (cs : List Char) : Nat :=
  cs.foldl (fun a c => a * 10 + (c.toNat - 48)) 0

/-- All characters are ASCII decimal digits. -/
def allDigits (cs : List Char) : Bool :=
  cs.all (fun c => c.isDigit)

/-- A year field of `strptime`: exactly four digits. -/
def yearField (cs : List Char) : Bool :=
  cs.length = 4 && allDigits cs

/-- A month/day field of `strptime`: one or two digits (value range is
checked afterwards by the calendar validation). -/
def twoDigitField (cs : List Char) : Bool :=
  (cs.length = 1 || cs.length = 2) && allDigits cs

/-- Split a character list at every occurrence of the separator
(the semantics of `String.splitOn` with a one-character separator). -/
def splitSep (sep : Char) : List Char → List (List Char)
  | [] => [[]]
  | c :: rest =>
    if c = sep then [] :: splitSep sep rest
    else
      match splitSep sep rest with
      | [] => [[c]]
      | h :: t => (c :: h) :: t

/-- `pd.to_datetime(s, format="%Y-%m-%d", errors="coerce")` on one cell:
strict full-string match of `YYYY-MM-DD`, then calendar validation;
failure gives `none` (NaT). -/
def parseYMD (s : String) : Option Date :=
  match splitSep (Char.ofNat 45) s.data with
  | [ys, ms, ds] =>
    if yearField ys && twoDigitField ms && twoDigitField ds then
      mkValidDate (digitsToNat ys) (digitsToNat ms) (digitsToNat ds)
    else none
  | _ => none

/-- `pd.to_datetime(s, format="%d/%m/%Y", errors="coerce")` on one cell:
strict full-string match of `DD/MM/YYYY`, then calendar validation. -/
def parseDMY (s : String) : Option Date :=
  match splitSep (Char.ofNat 47) s.data with
  | [ds, ms, ys] =>
    if twoDigitField ds && twoDigitField ms && yearField ys then
      mkValidDate (digitsToNat ys) (digitsToNat ms) (digitsToNat ds)
    else none
  | _ => none

/-- `clean_timestamps` (src/cleaner.py, lines 27-34) on one cell:
`dt1 = to_datetime(s, "%Y-%m-%d")`, `dt2 = to_datetime(s, "%d/%m/%Y")`,
result `dt1.fillna(dt2)` — the ISO parse wins when it succeeds, otherwise
the day/month/year parse is used, otherwise `none`.
The batch warning about unparseable values is a side effect with no
influence on the returned data and is not modeled. -/
def clean_timestamp (s : String) : Option Date :=
  match parseYMD s with
  | some d => some d
  | none => parseDMY s

/-- A character kept by the regex replacement `[^a-z0-9] → ""`:
lowercase ASCII letter or ASCII digit. -/
def isLowerAlnum (c : Char) : Bool :=
  (97 ≤ c.toNat && c.toNat ≤ 122) || (48 ≤ c.toNat && c.toNat ≤ 57)

/-- Python `str.strip()` on a character list: drop leading and trailing
whitespace. -/
def pyStrip (cs : List Char) : List Char :=
  ((cs.dropWhile Char.isWhitespace).reverse.dropWhile Char.isWhitespace).reverse

/-- The alias-correction table of `clean_partner_ids`
(`s.replace({...})`): a whole-cell match is replaced by the canonical
name, any other value passes through unchanged. -/
def aliasFix (t : String) : String :=
  if t = "br1ghtblox" then "brightblox"
  else if t = "funbles" then "funables"
  else if t = "k1dzsy" then "kidzsy"
  else if t = "m1n1mx" then "minimax"
  else if t = "plypyls" then "playpals"
  else if t = "plypls" then "playpals"
  else if t = "zppytoys" then "zappytoys"
  else t

/-- The canonical partner set of `clean_partner_ids` (used only for the
advisory warning). -/
def canonicalPartners : List String :=
  ["brightblox", "funables", "kidzsy", "minimax", "playpals", "toonjoy", "zappytoys"]

/-- `clean_partner_ids` (src/cleaner.py, lines 7-25) on one non-null cell:
`.str.lower()`, `.str.strip()`, regex-remove every character that is not a
lowercase letter or digit, then the alias table.  The membership test
against the canonical set only emits a warning; unrecognized values pass
through unchanged.  A null cell stays null (pandas `.str` ops propagate
`NaN`), see `clean_partner_id?`. -/
def clean_partner_id (s : String) : String :=
  aliasFix (String.mk ((pyStrip (s.data.map Char.toLower)).filter isLowerAlnum))

/-- `clean_partner_ids` on one cell including the null case. -/
def clean_partner_id? (s : Option String) : Option String :=
  s.map clean_partner_id

/-- A row of the cleaned frame inside `load_data` (src/dashboard.py,
lines 18-30) just before the served-row rule: partner id after
`clean_partner_ids`, clicks and impressions after `pd.to_numeric(...,
errors="coerce")`, date after `clean_timestamps`.  `none` is pandas NaN. -/
structure CRow where
  partner : Option String
  clicks : Option ℚ
  impressions : Option ℚ
  date : Option Date
deriving DecidableEq, Repr

/-- The mask `served = df["impressions"].notna() & (df["impressions"] > 0)`
(src/dashboard.py, line 27); a NaN comparison is False in pandas. -/
def servedB (r : CRow) : Bool :=
  match r.impressions with
  | some v => decide (0 < v)
  | none => false

/-- The assignment `df.loc[served & df["clicks"].isna(), "clicks"] = 0`
(src/dashboard.py, line 28), acting on one row. -/
def fillClicks (r : CRow) : CRow :=
  if servedB r && r.clicks.isNone then { r with clicks := some 0 } else r

/-- The served-row business rule of `load_data` (src/dashboard.py, lines
27-29): zero-fill clicks on served rows with null clicks, then keep the
rows of the `served` mask whose date is non-null
(`df = df[served].dropna(subset=["date"])`).  `fillClicks` does not touch
`impressions` or `date`, so testing the mask after the fill is the same
as the source's mask computed before it. -/
def load_filter (rows : List CRow) : List CRow :=
  (rows.map fillClicks).filter (fun r => servedB r && r.date.isSome)

/-- A row of the `daily` frame (src/dashboard.py, lines 44-49): group key,
summed clicks and impressions, and `ctr = clicks / imps`. -/
structure Metric where
  partner : String
  date : Date
  clicks : ℚ
  imps : ℚ
  ctr : ℚ
deriving DecidableEq, Repr

/-- The groupby key of a row; `none` when either level is NaN — pandas
`groupby(["partner_id", "date"])` silently drops such rows
(`dropna=True` default). -/
def rowKey (r : CRow) : Option (String × Date) :=
  match r.partner, r.date with
  | some p, some d => some (p, d)
  | _, _ => none

/-- Python's `<` on strings (code-point lexicographic), the order pandas
uses to sort the `partner_id` level of the group key. -/
def strLtB : List Char → List Char → Bool
  | [], [] => false
  | [], _ :: _ => true
  | _ :: _, [] => false
  | a :: as, b :: bs =>
    if a.toNat < b.toNat then true
    else if b.toNat < a.toNat then false
    else strLtB as bs

/-- Strict lexicographic order on dates (year, month, day), as a
proposition. -/
def dateLtP (a b : Date) : Prop :=
  a.y < b.y ∨ (a.y = b.y ∧ (a.m < b.m ∨ (a.m = b.m ∧ a.d < b.d)))

instance (a b : Date) : Decidable (dateLtP a b) := by
  unfold dateLtP
  infer_instance

/-- Strict lexicographic order on dates (year, month, day). -/
def dateLtB (a b : Date) : Bool :=
  decide (dateLtP a b)

/-- Non-strict date order used by the pipeline's sort. -/
def dateLEb (a b : Date) : Bool :=
  !(dateLtB b a)

/-- The (partner_id, date) order of `groupby` / `sort_values`:
partner first (Python string order), date second. -/
def keyLEb (a b : String × Date) : Bool :=
  if strLtB a.1.data b.1.data then true
  else if strLtB b.1.data a.1.data then false
  else dateLEb a.2 b.2

/-- `keyLEb` as a relation, for `List.insertionSort`. -/
def keyLE (a b : String × Date) : Prop :=
  keyLEb a b = true

instance : DecidableRel keyLE :=
  fun a b => inferInstanceAs (Decidable (keyLEb a b = true))

/-- The distinct non-null group keys present in the rows, in order of
first appearance. -/
def keysOf (rows : List CRow) : List (String × Date) :=
  (rows.filterMap rowKey).dedup

/-- The rows of one group. -/
def groupRows (rows : List CRow) (k : String × Date) : List CRow :=
  rows.filter (fun r => decide (rowKey r = some k))

/-- One aggregated row: `agg(clicks=("clicks","sum"),
imps=("impressions","sum"))` and `daily["ctr"] = clicks / imps`
(src/dashboard.py, lines 44-49).  Pandas `sum` skips NaN (an all-NaN
group sums to 0), hence `Option.getD 0`. -/
def groupMetric (rows : List CRow) (k : String × Date) : Metric :=
  let grp := groupRows rows k
  let c := (grp.map (fun r => r.clicks.getD 0)).sum
  let i := (grp.map (fun r => r.impressions.getD 0)).sum
  ⟨k.1, k.2, c, i, c / i⟩

/-- The `daily` frame (src/dashboard.py, lines 44-51): one row per
distinct non-null (partner_id, date) key, in ascending key order.
`groupby(..., as_index=False)` already emits groups sorted by key
(`sort=True` default) and with unique keys, so the later
`daily.sort_values(["partner_id", "date"])` does not reorder anything;
the embedding builds the frame directly in sorted key order. -/
def aggregateDaily (rows : List CRow) : List Metric :=
  (List.insertionSort keyLE (keysOf rows)).map (groupMetric rows)

/-- The value of the float expression
`(ctr - prev_ctr) / prev_ctr` (src/dashboard.py, line 53): a finite
rational, or an IEEE special value when `prev_ctr` is 0 or NaN. -/
inductive PctVal where
  | fin (q : ℚ)
  | pinf
  | ninf
  | nan
  | null
deriving DecidableEq, Repr

/-- `daily["pct_change"] = (daily["ctr"] - daily["prev_ctr"]) /
daily["prev_ctr"]` on one row, with IEEE semantics at the corner points:
NaN `prev_ctr` (no previous row) propagates NaN (`null`); a zero
`prev_ctr` gives `±inf` by the numerator's sign, or NaN when the
numerator is 0 too. -/
def pct_change (prev : Option ℚ) (cur : ℚ) : PctVal :=
  match prev with
  | none => .null
  | some p =>
    if p = 0 then
      if 0 < cur - p then .pinf
      else if cur - p < 0 then .ninf
      else .nan
    else .fin ((cur - p) / p)

/-- IEEE comparison `v <= t` for a finite threshold `t`: False on NaN. -/
def pctLe (v : PctVal) (t : ℚ) : Bool :=
  match v with
  | .fin q => decide (q ≤ t)
  | .pinf => false
  | .ninf => true
  | .nan => false
  | .null => false

/-- `np.select(conds, choices, default)`: the choice of the first true
condition, else the default. -/
def npSelect : List (Bool × String) → String → String
  | [], dflt => dflt
  | (c, v) :: rest, dflt => if c then v else npSelect rest dflt

/-- `daily["drop_level"] = np.select(conds, choices, default="")`
(src/dashboard.py, lines 55-61) as a function of the row's pct_change. -/
def drop_level (v : PctVal) : String :=
  npSelect
    [(pctLe v (-(3 : ℚ)/10), "30%"),
     (pctLe v (-(2 : ℚ)/10), "20%"),
     (pctLe v (-(1 : ℚ)/10), "10%")] ""

/-- The `prev_ctr` a row with partner `p` receives from
`groupby("partner_id")["ctr"].shift(1)` given the rows above it: the
`ctr` of the last earlier row with the same partner, NaN if none. -/
def prevCtrOf (seen : List Metric) (p : String) : Option ℚ :=
  ((seen.filter (fun x => decide (x.partner = p))).getLast?).map Metric.ctr

/-- Helper for `withPrev`: `seen` is the list of rows above the cursor. -/
def withPrevAux (seen : List Metric) : List Metric → List (Metric × Option ℚ)
  | [] => []
  | m :: rest => (m, prevCtrOf seen m.partner) :: withPrevAux (seen ++ [m]) rest

/-- `daily["prev_ctr"] = daily.groupby("partner_id")["ctr"].shift(1)`
(src/dashboard.py, line 52): each row paired with the ctr of the nearest
earlier row of the same partner (`none` = NaN for the first). -/
def withPrev (daily : List Metric) : List (Metric × Option ℚ) :=
  withPrevAux [] daily

/-- Rows of `daily` with their `prev_ctr` and `drop_level` columns
(src/dashboard.py, lines 52-61). -/
def classify (daily : List Metric) : List (Metric × Option ℚ × String) :=
  (withPrev daily).map (fun x => (x.1, x.2, drop_level (pct_change x.2 x.1.ctr)))

/-- `drop_rows = daily[daily["drop_level"] != ""]` (src/dashboard.py,
line 62): the rows that carry a DropEvent. -/
def drop_rows (daily : List Metric) : List (Metric × Option ℚ × String) :=
  (classify daily).filter (fun x => x.2.2 != "")

/-- The `daily` frame computed from the raw cleaned rows: the pipeline up
to src/dashboard.py line 51 (partner-filter sidebar left at its default,
which selects every partner). -/
def dailyOf (rows : List CRow) : List Metric :=
  aggregateDaily (load_filter rows)

/-- The date-ordered subsequence of `daily` belonging to one partner. -/
def partnerMetrics (daily : List Metric) (p : String) : List Metric :=
  daily.filter (fun m => decide (m.partner = p))

/-- Reference sequence for C4: pair each element of a single partner's
sequence with the ctr of its immediate predecessor in that sequence
(`prev` seeds the first element). -/
def seqWithPrevAux (prev : Option ℚ) : List Metric → List (Metric × Option ℚ)
  | [] => []
  | m :: rest => (m, prev) :: seqWithPrevAux (some m.ctr) rest

/-- Reference sequence for C4: the first element gets no previous ctr,
every later element gets the ctr of the element right before it. -/
def seqWithPrev (ms : List Metric) : List (Metric × Option ℚ) :=
  seqWithPrevAux none ms

/-! ### Concrete sample data used in examples, witnesses and
counterexamples -/

def dJan1 : Date := ⟨2024, 1, 1⟩

def dJan2 : Date := ⟨2024, 1, 2⟩

/-- A served row whose day aggregates to zero clicks. -/
def rowZeroClicks : CRow := ⟨some "toonjoy", some 0, some 100, some dJan1⟩

/-- A served row for the following day with five clicks. -/
def rowFiveClicks : CRow := ⟨some "toonjoy", some 5, some 100, some dJan2⟩

/-- A row with a negative parsed clicks value (e.g. the raw cell "-3"). -/
def rowNegClicks : CRow := ⟨some "toonjoy", some (-3), some 100, some dJan1⟩

/-- A served row whose partner id is null. -/
def rowNullPartner : CRow := ⟨none, some 5, some 100, some dJan1⟩

/-- First row of the spec's aggregation example. -/
def rowAggA : CRow := ⟨some "x", some 10, some 100, some dJan1⟩

/-- Second row of the spec's aggregation example. -/
def rowAggB : CRow := ⟨some "x", some 5, some 50, some dJan1⟩

/-! ## Theorems -/

/-- C1: for a row with a previous row for its partner (`pct_change` is a
finite value of the signed relative change), the severity assigned by
`drop_level` is a function of pct_change alone, with inclusive thresholds
and most-severe-wins: ≤ −0.30 gives "30%", else ≤ −0.20 gives "20%", else
≤ −0.10 gives "10%", else the empty level (no DropEvent, since
`drop_rows` keeps exactly the rows with a non-empty level); in particular
exactly −0.10 gives "10%", −0.099999 gives no event, and zero, positive
or null pct_change gives no event. -/
theorem C1_drop_severity :
    (∀ q : ℚ, q ≤ -(3 : ℚ)/10 → drop_level (.fin q) = "30%")
    ∧ (∀ q : ℚ, ¬ q ≤ -(3 : ℚ)/10 → q ≤ -(2 : ℚ)/10 → drop_level (.fin q) = "20%")
    ∧ (∀ q : ℚ, ¬ q ≤ -(2 : ℚ)/10 → q ≤ -(1 : ℚ)/10 → drop_level (.fin q) = "10%")
    ∧ (∀ q : ℚ, ¬ q ≤ -(1 : ℚ)/10 → drop_level (.fin q) = "")
    ∧ drop_level (.fin (-(1 : ℚ)/10)) = "10%"
    ∧ drop_level (.fin (-(99999 : ℚ)/1000000)) = ""
    ∧ drop_level (.fin 0) = ""
    ∧ drop_level .null = "" := by
  refine ⟨?_, ?_, ?_, ?_, ?_, ?_, ?_, rfl⟩
  · intro q h
    simp [drop_level, npSelect, pctLe, h]
  · intro q h1 h2
    simp [drop_level, npSelect, pctLe, h1, h2]
  · intro q h1 h2
    have h0 : ¬ q ≤ -(3 : ℚ)/10 := fun h => h1 (le_trans h (by norm_num))
    simp [drop_level, npSelect, pctLe, h0, h1, h2]
  · intro q h1
    have h2 : ¬ q ≤ -(2 : ℚ)/10 := fun h => h1 (le_trans h (by norm_num))
    have h3 : ¬ q ≤ -(3 : ℚ)/10 := fun h => h1 (le_trans h (by norm_num))
    simp [drop_level, npSelect, pctLe, h1, h2, h3]
  · norm_num [drop_level, npSelect, pctLe]
  · norm_num [drop_level, npSelect, pctLe]
  · norm_num [drop_level, npSelect, pctLe]

/-- Witness for C1: the severity clauses applied at −0.5, −0.25, −0.15
and +0.1. -/
theorem C1_drop_severity_witness :
    drop_level (.fin (-(1 : ℚ)/2)) = "30%"
    ∧ drop_level (.fin (-(1 : ℚ)/4)) = "20%"
    ∧ drop_level (.fin (-(3 : ℚ)/20)) = "10%"
    ∧ drop_level (.fin ((1 : ℚ)/10)) = "" :=
  ⟨C1_drop_severity.1 _ (by norm_num),
   C1_drop_severity.2.1 _ (by norm_num) (by norm_num),
   C1_drop_severity.2.2.1 _ (by norm_num) (by norm_num),
   C1_drop_severity.2.2.2.1 _ (by norm_num)⟩

/-- C7: each raw timestamp string is mapped independently by first
attempting the strict format YYYY-MM-DD; on failure the strict format
DD/MM/YYYY is attempted; when both fail the result is null.  Specifically
"2024-03-05" parses to March 5 2024, "05/03/2024" parses to March 5 2024,
and "13/13/2024" parses to null. -/
theorem C7_timestamp_dual_format :
    (∀ s d, parseYMD s = some d → clean_timestamp s = some d)
    ∧ (∀ s, parseYMD s = none → clean_timestamp s = parseDMY s)
    ∧ clean_timestamp "2024-03-05" = some ⟨2024, 3, 5⟩
    ∧ clean_timestamp "05/03/2024" = some ⟨2024, 3, 5⟩
    ∧ clean_timestamp "13/13/2024" = none := by
  refine ⟨?_, ?_, by decide, by decide, by decide⟩
  · intro s d h
    unfold clean_timestamp
    rw [h]
  · intro s h
    unfold clean_timestamp
    rw [h]

/-- Witness for C7: the two format-order clauses applied to concrete
strings. -/
theorem C7_timestamp_dual_format_witness :
    clean_timestamp "2024-03-05" = some ⟨2024, 3, 5⟩
    ∧ clean_timestamp "05/03/2024" = parseDMY "05/03/2024" :=
  ⟨C7_timestamp_dual_format.1 "2024-03-05" ⟨2024, 3, 5⟩ (by decide),
   C7_timestamp_dual_format.2.1 "05/03/2024" (by decide)⟩

/-- The rows kept by a Boolean filter all satisfy it. -/
theorem filter_all_self {α : Type} (p : α → Bool) (l : List α) :
    (l.filter p).all p = true := by
  simp only [List.all_eq_true]
  intro a ha
  exact List.of_mem_filter ha

/-- C8: for every input string, the output of the partner-id normalizer
contains only lowercase ASCII alphanumeric characters — both for values
the alias table rewrites (the canonical replacements are themselves
lowercase alphanumeric) and for values that pass through the regex
filter unchanged. -/
theorem C8_output_lower_alnum :
    ∀ s : String, ((clean_partner_id s).data.all isLowerAlnum) = true := by
  intro s
  unfold clean_partner_id aliasFix
  split_ifs <;> first
    | decide
    | exact filter_all_self isLowerAlnum _

/-- C9: normalization is idempotent on the canonical identifiers —
mapping the normalizer over the canonical partner list returns the list
unchanged, i.e. each of the seven canonical ids normalizes to itself. -/
theorem C9_idempotent_on_canonical :
    canonicalPartners.map clean_partner_id = canonicalPartners
    ∧ ∀ p ∈ canonicalPartners, clean_partner_id p = p := by
  refine ⟨by decide, ?_⟩
  decide

/-- Witness for C9: idempotence applied to the concrete member
"playpals". -/
theorem C9_idempotent_on_canonical_witness :
    clean_partner_id "playpals" = "playpals" :=
  C9_idempotent_on_canonical.2 "playpals" (by decide)

/-- `fillClicks` never changes the impressions field. -/
theorem fillClicks_impressions (r : CRow) :
    (fillClicks r).impressions = r.impressions := by
  unfold fillClicks
  split <;> rfl

/-- `fillClicks` never changes the date field. -/
theorem fillClicks_date (r : CRow) : (fillClicks r).date = r.date := by
  unfold fillClicks
  split <;> rfl

/-- `fillClicks` never changes the partner field. -/
theorem fillClicks_partner (r : CRow) : (fillClicks r).partner = r.partner := by
  unfold fillClicks
  split <;> rfl

/-- The served mask is unchanged by the clicks fill, as it only reads
impressions. -/
theorem servedB_fillClicks (r : CRow) : servedB (fillClicks r) = servedB r := by
  unfold servedB
  rw [fillClicks_impressions]

/-- The served mask holds exactly on rows with non-null positive
impressions. -/
theorem servedB_iff (r : CRow) :
    servedB r = true ↔ ∃ v, r.impressions = some v ∧ 0 < v := by
  rcases r with ⟨p, c, i, d⟩
  cases i <;> simp [servedB]

/-- `load_filter` on a single row: kept (with clicks filled) exactly when
the served mask and the date check pass. -/
theorem load_filter_singleton (r : CRow) :
    load_filter [r] = if servedB r && r.date.isSome then [fillClicks r] else [] := by
  simp only [load_filter, List.map_cons, List.map_nil, List.filter_cons, List.filter_nil,
    servedB_fillClicks, fillClicks_date]

/-- C5: the row filter retains a cleaned row iff its impressions field is
non-null and strictly positive and its date field is non-null; the
clicks field is rewritten (to 0) only on rows that pass the impressions
check and have null clicks.  In particular impressions=0, clicks=5 is
discarded; impressions=100, clicks=null is retained with clicks=0;
impressions=null, clicks=0 is discarded. -/
theorem C5_served_row_rule :
    (∀ r : CRow, load_filter [r] ≠ []
        ↔ ((∃ v, r.impressions = some v ∧ 0 < v) ∧ r.date ≠ none))
    ∧ (∀ r : CRow, (fillClicks r).clicks ≠ r.clicks →
        servedB r = true ∧ r.clicks = none ∧ (fillClicks r).clicks = some 0)
    ∧ (∀ r : CRow, servedB r = true → r.clicks = none →
        (fillClicks r).clicks = some 0)
    ∧ load_filter [⟨some "toonjoy", some 5, some 0, some dJan1⟩] = []
    ∧ load_filter [⟨some "toonjoy", none, some 100, some dJan1⟩]
        = [⟨some "toonjoy", some 0, some 100, some dJan1⟩]
    ∧ load_filter [⟨some "toonjoy", some 0, none, some dJan1⟩] = [] := by
  refine ⟨?_, ?_, ?_, by decide, by decide, by decide⟩
  · intro r
    rw [load_filter_singleton]
    constructor
    · intro hne
      have hc : (servedB r && r.date.isSome) = true := by
        by_contra hcf
        rw [Bool.not_eq_true] at hcf
        rw [hcf] at hne
        simp at hne
      rw [Bool.and_eq_true] at hc
      refine ⟨(servedB_iff r).mp hc.1, ?_⟩
      intro hd
      rw [hd] at hc
      simp at hc
    · rintro ⟨hv, hd⟩
      have h1 : servedB r = true := (servedB_iff r).mpr hv
      have h2 : r.date.isSome = true := Option.isSome_iff_ne_none.mpr hd
      rw [h1, h2]
      simp
  · intro r h
    unfold fillClicks at h ⊢
    by_cases hc : (servedB r && r.clicks.isNone) = true
    · rw [if_pos hc]
      rw [Bool.and_eq_true] at hc
      exact ⟨hc.1, Option.isNone_iff_eq_none.mp hc.2, rfl⟩
    · rw [if_neg hc] at h
      exact absurd rfl h
  · intro r hs hc
    simp [fillClicks, hs, hc]

/-- Witness for C5: the retention criterion and the zero-fill clause
applied to concrete rows. -/
theorem C5_served_row_rule_witness :
    load_filter [(⟨some "toonjoy", none, some 100, some dJan1⟩ : CRow)] ≠ []
    ∧ (fillClicks ⟨some "toonjoy", none, some 100, some dJan1⟩).clicks = some 0 :=
  ⟨(C5_served_row_rule.1 _).mpr ⟨⟨100, rfl, by norm_num⟩, by decide⟩,
   C5_served_row_rule.2.2.1 _ (by decide) rfl⟩

/-- C2 (amended): every row that survives the row filter has non-null
strictly positive impressions and a non-null clicks value; the retained
clicks value is non-negative whenever every non-null clicks value of the
input batch is non-negative.  (The filter itself never rejects or
rewrites a negative clicks value, see the counterexample.) -/
theorem C2_survivor_invariant :
    (∀ rows : List CRow, ∀ r ∈ load_filter rows,
        (∃ v, r.impressions = some v ∧ 0 < v) ∧ r.clicks ≠ none)
    ∧ (∀ rows : List CRow,
        (∀ r0 ∈ rows, ∀ c : ℚ, r0.clicks = some c → 0 ≤ c) →
        ∀ r ∈ load_filter rows, ∀ c : ℚ, r.clicks = some c → 0 ≤ c) := by
  constructor
  · intro rows r hr
    rw [load_filter] at hr
    obtain ⟨hmem, hpred⟩ := List.mem_filter.mp hr
    rw [Bool.and_eq_true] at hpred
    obtain ⟨r0, hr0, hfr⟩ := List.mem_map.mp hmem
    refine ⟨(servedB_iff r).mp hpred.1, ?_⟩
    intro hnone
    have hs0 : servedB r0 = true := by
      rw [← servedB_fillClicks, hfr]
      exact hpred.1
    unfold fillClicks at hfr
    by_cases hc : (servedB r0 && r0.clicks.isNone) = true
    · rw [if_pos hc] at hfr
      rw [← hfr] at hnone
      simp at hnone
    · rw [if_neg hc] at hfr
      apply hc
      rw [Bool.and_eq_true]
      refine ⟨hs0, ?_⟩
      rw [hfr, hnone]
      rfl
  · intro rows hnn r hr c hc
    rw [load_filter] at hr
    obtain ⟨hmem, _⟩ := List.mem_filter.mp hr
    obtain ⟨r0, hr0, hfr⟩ := List.mem_map.mp hmem
    unfold fillClicks at hfr
    by_cases hcond : (servedB r0 && r0.clicks.isNone) = true
    · rw [if_pos hcond] at hfr
      rw [← hfr] at hc
      simp at hc
      subst hc
      exact le_refl 0
    · rw [if_neg hcond] at hfr
      exact hnn r0 hr0 c (by rw [hfr]; exact hc)

/-- Counterexample for C2 as stated: a surviving row need not have
non-negative clicks — a cleaned row with clicks = −3 and impressions =
100 passes the filter untouched, so "every ServedRow has clicks ≥ 0" is
false on the code. -/
theorem C2_counterexample :
    ¬ (∀ rows : List CRow, ∀ r ∈ load_filter rows, ∀ c : ℚ,
        r.clicks = some c → 0 ≤ c) := by
  intro h
  have h3 := h [rowNegClicks] rowNegClicks (by decide) (-3) (by decide)
  norm_num at h3

/-- Witness for C2 (amended): the invariant applied to a concrete
surviving row. -/
theorem C2_survivor_invariant_witness :
    (∃ v, rowZeroClicks.impressions = some v ∧ 0 < v)
    ∧ rowZeroClicks.clicks ≠ none :=
  C2_survivor_invariant.1 [rowZeroClicks] rowZeroClicks (by decide)

/-- A row has a group key exactly when both key levels are non-null. -/
theorem rowKey_eq_some_iff (r : CRow) (k : String × Date) :
    rowKey r = some k ↔ r.partner = some k.1 ∧ r.date = some k.2 := by
  rcases r with ⟨p, c, i, d⟩
  rcases k with ⟨k1, k2⟩
  rcases p with _ | p <;> rcases d with _ | d <;> simp [rowKey, Prod.ext_iff]

/-- A null-partner row has no group key. -/
theorem rowKey_null_partner {r : CRow} (h : r.partner = none) :
    rowKey r = none := by
  rcases r with ⟨p, c, i, d⟩
  cases h
  rcases d with _ | d <;> rfl

/-- Appending a null-partner row changes no group. -/
theorem groupRows_append_null {rows : List CRow} {r : CRow}
    (h : r.partner = none) (k : String × Date) :
    groupRows (rows ++ [r]) k = groupRows rows k := by
  unfold groupRows
  rw [List.filter_append]
  have h2 : List.filter (fun x => decide (rowKey x = some k)) [r] = [] := by
    simp [List.filter_cons, List.filter_nil, rowKey_null_partner h]
  rw [h2, List.append_nil]

/-- C10: a row with a null partner id can survive the row filter (with
positive impressions and a valid date) yet contributes to no daily
metric and no drop event: every row contributing to a group has a
non-null partner, appending a null-partner row to a batch changes
neither the daily frame nor the drop rows, and a batch consisting of
only a null-partner served row aggregates to an empty frame (no bucket
is created for the null id, unlike for unrecognized non-null ids). -/
theorem C10_null_partner_no_bucket :
    load_filter [rowNullPartner] = [rowNullPartner]
    ∧ (∀ rows : List CRow, ∀ m ∈ aggregateDaily rows,
        ∀ r ∈ groupRows rows (m.partner, m.date), r.partner ≠ none)
    ∧ (∀ rows : List CRow, ∀ r : CRow, r.partner = none →
        aggregateDaily (rows ++ [r]) = aggregateDaily rows)
    ∧ (∀ rows : List CRow, ∀ r : CRow, r.partner = none →
        drop_rows (aggregateDaily (rows ++ [r])) = drop_rows (aggregateDaily rows))
    ∧ aggregateDaily [rowNullPartner] = [] := by
  have happ : ∀ (rows : List CRow) (r : CRow), r.partner = none →
      aggregateDaily (rows ++ [r]) = aggregateDaily rows := by
    intro rows r hnone
    unfold aggregateDaily
    have hkeys : keysOf (rows ++ [r]) = keysOf rows := by
      unfold keysOf
      rw [List.filterMap_append]
      have h0 : List.filterMap rowKey [r] = [] := by
        simp [List.filterMap_cons, rowKey_null_partner hnone]
      rw [h0, List.append_nil]
    rw [hkeys]
    apply List.map_congr_left
    intro k _
    simp only [groupMetric, groupRows_append_null hnone]
  refine ⟨by decide, ?_, happ, fun rows r h => by rw [happ rows r h], by decide⟩
  intro rows m _ r hr hnone
  have h1 := List.of_mem_filter hr
  rw [decide_eq_true_iff] at h1
  rw [rowKey_null_partner hnone] at h1
  exact Option.noConfusion h1

/-- Witness for C10: appending the concrete null-partner served row to a
concrete batch leaves the daily frame unchanged. -/
theorem C10_null_partner_no_bucket_witness :
    aggregateDaily ([rowZeroClicks] ++ [rowNullPartner])
      = aggregateDaily [rowZeroClicks] :=
  C10_null_partner_no_bucket.2.2.1 [rowZeroClicks] rowNullPartner rfl

/-- The partner field of an aggregated row is the partner level of its
group key. -/
theorem groupMetric_partner (rows : List CRow) (k : String × Date) :
    (groupMetric rows k).partner = k.1 := rfl

/-- The date field of an aggregated row is the date level of its group
key. -/
theorem groupMetric_date (rows : List CRow) (k : String × Date) :
    (groupMetric rows k).date = k.2 := rfl

/-- The keys of the `daily` frame are the sorted distinct group keys. -/
theorem aggregateDaily_keys (rows : List CRow) :
    (aggregateDaily rows).map (fun m => (m.partner, m.date))
      = List.insertionSort keyLE (keysOf rows) := by
  unfold aggregateDaily
  rw [List.map_map]
  have h : ((fun m => (m.partner, m.date)) ∘ groupMetric rows) = id := by
    funext k
    rfl
  rw [h, List.map_id]

/-- C6: the aggregator produces exactly one output row per distinct
non-null (partner_id, date) pair present in the filtered rows — the key
list of the output has no duplicates and carries a key iff some input
row has it — and each output row's clicks and impressions are the sums
over its group, with ctr the quotient of the two sums.  On the spec's
example, two rows for the same (partner, date) with (clicks=10,
imps=100) and (clicks=5, imps=50) aggregate to clicks=15, imps=150,
ctr=0.10. -/
theorem C6_daily_aggregation :
    (∀ rows : List CRow,
        ((aggregateDaily rows).map (fun m => (m.partner, m.date))).Nodup)
    ∧ (∀ rows : List CRow, ∀ k : String × Date,
        (k ∈ (aggregateDaily rows).map (fun m => (m.partner, m.date)))
          ↔ ∃ r ∈ rows, rowKey r = some k)
    ∧ (∀ rows : List CRow, ∀ m ∈ aggregateDaily rows,
        m.clicks = ((groupRows rows (m.partner, m.date)).map
            (fun r => r.clicks.getD 0)).sum
        ∧ m.imps = ((groupRows rows (m.partner, m.date)).map
            (fun r => r.impressions.getD 0)).sum
        ∧ m.ctr = m.clicks / m.imps)
    ∧ aggregateDaily [rowAggA, rowAggB] = [⟨"x", dJan1, 15, 150, (1 : ℚ)/10⟩] := by
  refine ⟨?_, ?_, ?_, ?_⟩
  · intro rows
    rw [aggregateDaily_keys]
    exact ((List.perm_insertionSort keyLE _).nodup_iff).mpr (List.nodup_dedup _)
  · intro rows k
    rw [aggregateDaily_keys]
    simp only [keysOf]
    rw [(List.perm_insertionSort keyLE _).mem_iff, List.mem_dedup, List.mem_filterMap]
  · intro rows m hm
    unfold aggregateDaily at hm
    obtain ⟨k, _, hmk⟩ := List.mem_map.mp hm
    subst hmk
    exact ⟨rfl, rfl, rfl⟩
  · simp [aggregateDaily, keysOf, rowKey, rowAggA, rowAggB, groupMetric, groupRows,
      List.insertionSort, List.orderedInsert, keyLE, keyLEb, strLtB, dateLEb, dateLtB,
      dateLtP, dJan1]
    norm_num

/-- Witness for C6: the group-sum clause applied to the concrete
aggregated row of the spec's example batch. -/
theorem C6_daily_aggregation_witness :
    (groupMetric [rowAggA, rowAggB] ("x", dJan1)).ctr
      = (groupMetric [rowAggA, rowAggB] ("x", dJan1)).clicks
        / (groupMetric [rowAggA, rowAggB] ("x", dJan1)).imps := by
  have hm : groupMetric [rowAggA, rowAggB] ("x", dJan1)
      ∈ aggregateDaily [rowAggA, rowAggB] := by
    unfold aggregateDaily
    have hk : List.insertionSort keyLE (keysOf [rowAggA, rowAggB])
        = [("x", dJan1)] := by decide
    rw [hk]
    exact List.mem_cons_self _ _
  exact (C6_daily_aggregation.2.2.1 [rowAggA, rowAggB] _ hm).2.2

/-- A row kept by the row filter has non-null positive impressions. -/
theorem served_of_mem_load_filter {rows : List CRow} {r : CRow}
    (h : r ∈ load_filter rows) : ∃ v, r.impressions = some v ∧ 0 < v := by
  rw [load_filter] at h
  have h2 := (List.mem_filter.mp h).2
  rw [Bool.and_eq_true] at h2
  exact (servedB_iff r).mp h2.1

/-- Every `prev_ctr` value handed to the pct-change column is either NaN
(first row of its partner) or the ctr of some row of `daily`. -/
theorem withPrevAux_prev_cases :
    ∀ (daily seen : List Metric), ∀ x ∈ withPrevAux seen daily,
      x.2 = none ∨ ∃ m ∈ seen ++ daily, x.2 = some m.ctr := by
  intro daily
  induction daily with
  | nil => intro seen x hx; exact absurd hx (List.not_mem_nil x)
  | cons m rest ih =>
    intro seen x hx
    rw [withPrevAux] at hx
    rcases List.mem_cons.mp hx with hx1 | hx2
    · subst hx1
      unfold prevCtrOf
      rcases hlast : (seen.filter (fun y => decide (y.partner = m.partner))).getLast? with _ | z
      · left
        show Option.map Metric.ctr
          (seen.filter (fun y => decide (y.partner = m.partner))).getLast? = none
        rw [hlast]
        rfl
      · right
        have hz : z ∈ seen.filter (fun y => decide (y.partner = m.partner)) :=
          List.mem_of_mem_getLast? hlast
        refine ⟨z, List.mem_append_left _ (List.mem_of_mem_filter hz), ?_⟩
        show Option.map Metric.ctr
          (seen.filter (fun y => decide (y.partner = m.partner))).getLast? = some z.ctr
        rw [hlast]
        rfl
    · rcases ih (seen ++ [m]) x hx2 with h | ⟨m2, hm2, hx2eq⟩
      · left
        exact h
      · right
        refine ⟨m2, ?_, hx2eq⟩
        rw [List.append_assoc] at hm2
        simpa using hm2

/-- C3 (amended): every denominator of `ctr = clicks / imps` is strictly
positive (each contributing row has positive impressions and each group
is non-empty); every denominator `prev_ctr` of the pct-change column is
either NaN (no previous row — no division happens on a real value) or
the ctr of an earlier daily row, and such a ctr is nonzero whenever that
row's summed clicks are nonzero.  (It CAN be zero when the previous
day's clicks sum to zero, see the counterexample.) -/
theorem C3_division_denominators :
    (∀ rows : List CRow, ∀ m ∈ dailyOf rows, 0 < m.imps)
    ∧ (∀ rows : List CRow, ∀ m ∈ dailyOf rows, m.clicks ≠ 0 → m.ctr ≠ 0)
    ∧ (∀ daily : List Metric, ∀ x ∈ withPrev daily,
        x.2 = none ∨ ∃ m ∈ daily, x.2 = some m.ctr) := by
  have hpos : ∀ rows : List CRow, ∀ m ∈ dailyOf rows, 0 < m.imps := by
    intro rows m hm
    unfold dailyOf aggregateDaily at hm
    obtain ⟨k, hk, hmk⟩ := List.mem_map.mp hm
    subst hmk
    have hkm : k ∈ keysOf (load_filter rows) :=
      (List.perm_insertionSort keyLE _).mem_iff.mp hk
    simp only [keysOf, List.mem_dedup, List.mem_filterMap] at hkm
    obtain ⟨r, hr, hrk⟩ := hkm
    show 0 < ((groupRows (load_filter rows) k).map
      (fun r => r.impressions.getD 0)).sum
    apply List.sum_pos
    · intro x hx
      obtain ⟨r2, hr2, hx2⟩ := List.mem_map.mp hx
      subst hx2
      unfold groupRows at hr2
      obtain ⟨v, hv, hvpos⟩ := served_of_mem_load_filter (List.mem_filter.mp hr2).1
      rw [hv]
      exact hvpos
    · intro hnil
      rw [List.map_eq_nil_iff] at hnil
      have hrg : r ∈ groupRows (load_filter rows) k := by
        unfold groupRows
        exact List.mem_filter.mpr ⟨hr, by rw [decide_eq_true_iff]; exact hrk⟩
      rw [hnil] at hrg
      exact absurd hrg (List.not_mem_nil r)
  refine ⟨hpos, ?_, ?_⟩
  · intro rows m hm hc
    have h1 : 0 < m.imps := hpos rows m hm
    have hctr : m.ctr = m.clicks / m.imps := by
      unfold dailyOf aggregateDaily at hm
      obtain ⟨k, _, hmk⟩ := List.mem_map.mp hm
      subst hmk
      rfl
    rw [hctr]
    exact div_ne_zero hc (ne_of_gt h1)
  · intro daily x hx
    have h := withPrevAux_prev_cases daily [] x hx
    rw [List.nil_append] at h
    exact h

/-- Counterexample for C3 as stated: with a partner whose first day has
zero clicks (100 impressions) and whose second day has five clicks, the
pct-change row of the second day has `prev_ctr = 0`, and the division
`(ctr − prev_ctr) / prev_ctr` there is a division by zero (IEEE `+inf`
in the float frame). -/
theorem C3_counterexample :
    (∃ x ∈ withPrev (dailyOf [rowZeroClicks, rowFiveClicks]), x.2 = some 0)
    ∧ pct_change (some 0) ((1 : ℚ)/20) = .pinf := by
  constructor
  · have h : (withPrev (dailyOf [rowZeroClicks, rowFiveClicks])).map (fun x => x.2)
        = [none, some 0] := by
      simp [dailyOf, load_filter, fillClicks, servedB, rowZeroClicks, rowFiveClicks,
        aggregateDaily, keysOf, rowKey, List.insertionSort, List.orderedInsert, keyLE,
        keyLEb, dJan1, dJan2, strLtB, dateLEb, dateLtB, dateLtP, groupMetric, groupRows,
        withPrev, withPrevAux, prevCtrOf]
    have h2 : some (0 : ℚ) ∈ (withPrev (dailyOf [rowZeroClicks, rowFiveClicks])).map
        (fun x => x.2) := by
      rw [h]
      simp
    obtain ⟨x, hx, hx2⟩ := List.mem_map.mp h2
    exact ⟨x, hx, hx2⟩
  · norm_num [pct_change]

/-- Witness for C3 (amended): positivity of the ctr denominator on a
concrete one-row batch. -/
theorem C3_division_denominators_witness :
    0 < (groupMetric (load_filter [rowZeroClicks]) ("toonjoy", dJan1)).imps := by
  apply C3_division_denominators.1 [rowZeroClicks]
  have hd : dailyOf [rowZeroClicks]
      = [groupMetric (load_filter [rowZeroClicks]) ("toonjoy", dJan1)] := by
    unfold dailyOf aggregateDaily
    have hk : List.insertionSort keyLE (keysOf (load_filter [rowZeroClicks]))
        = [("toonjoy", dJan1)] := by decide
    rw [hk]
    rfl
  rw [hd]
  exact List.mem_cons_self _ _

/-- Characters with equal code points are equal. -/
theorem char_toNat_inj {a b : Char} (h : a.toNat = b.toNat) : a = b :=
  Char.ext (UInt32.ext h)

/-- The string order is irreflexive. -/
theorem strLtB_irrefl : ∀ l : List Char, strLtB l l = false
  | [] => rfl
  | c :: cs => by
    unfold strLtB
    rw [if_neg (lt_irrefl c.toNat), if_neg (lt_irrefl c.toNat)]
    exact strLtB_irrefl cs

/-- The string order is transitive. -/
theorem strLtB_trans : ∀ {a b c : List Char},
    strLtB a b = true → strLtB b c = true → strLtB a c = true := by
  intro a
  induction a with
  | nil =>
    intro b c hab hbc
    cases b with
    | nil => simp [strLtB] at hab
    | cons y ys =>
      cases c with
      | nil => simp [strLtB] at hbc
      | cons z zs => simp [strLtB]
  | cons x xs ih =>
    intro b c hab hbc
    cases b with
    | nil => simp [strLtB] at hab
    | cons y ys =>
      cases c with
      | nil => simp [strLtB] at hbc
      | cons z zs =>
        rw [strLtB] at hab hbc ⊢
        by_cases h1 : x.toNat < y.toNat
        · by_cases h2 : y.toNat < z.toNat
          · rw [if_pos (lt_trans h1 h2)]
          · by_cases h3 : z.toNat < y.toNat
            · rw [if_neg h2, if_pos h3] at hbc
              simp at hbc
            · have hxz : x.toNat < z.toNat := lt_of_lt_of_le h1 (le_of_not_lt h3)
              rw [if_pos hxz]
        · by_cases h1b : y.toNat < x.toNat
          · rw [if_neg h1, if_pos h1b] at hab
            simp at hab
          · rw [if_neg h1, if_neg h1b] at hab
            by_cases h2 : y.toNat < z.toNat
            · have hxz : x.toNat < z.toNat := lt_of_le_of_lt (le_of_not_lt h1b) h2
              rw [if_pos hxz]
            · by_cases h3 : z.toNat < y.toNat
              · rw [if_neg h2, if_pos h3] at hbc
                simp at hbc
              · rw [if_neg h2, if_neg h3] at hbc
                have hxy : x.toNat = y.toNat :=
                  le_antisymm (le_of_not_lt h1b) (le_of_not_lt h1)
                have hyz : y.toNat = z.toNat :=
                  le_antisymm (le_of_not_lt h3) (le_of_not_lt h2)
                rw [if_neg (by rw [hxy, hyz]; exact lt_irrefl _),
                  if_neg (by rw [hxy, hyz]; exact lt_irrefl _)]
                exact ih hab hbc

/-- Two strings neither of which precedes the other are equal. -/
theorem strLtB_conn : ∀ {a b : List Char},
    strLtB a b = false → strLtB b a = false → a = b := by
  intro a
  induction a with
  | nil =>
    intro b h1 h2
    cases b with
    | nil => rfl
    | cons y ys => simp [strLtB] at h1
  | cons x xs ih =>
    intro b h1 h2
    cases b with
    | nil => simp [strLtB] at h2
    | cons y ys =>
      rw [strLtB] at h1 h2
      by_cases hxy : x.toNat < y.toNat
      · rw [if_pos hxy] at h1
        simp at h1
      · by_cases hyx : y.toNat < x.toNat
        · rw [if_pos hyx] at h2
          simp at h2
        · rw [if_neg hxy, if_neg hyx] at h1
          rw [if_neg hyx, if_neg hxy] at h2
          have hxs : xs = ys := ih h1 h2
          have hc : x = y :=
            char_toNat_inj (le_antisymm (le_of_not_lt hyx) (le_of_not_lt hxy))
          rw [hc, hxs]

/-- The date lex order is asymmetric. -/
theorem dateLtP_asymm {a b : Date} (h1 : dateLtP a b) (h2 : dateLtP b a) :
    False := by
  unfold dateLtP at h1 h2
  omega

/-- The non-strict date order is total. -/
theorem dateLEb_total (a b : Date) : dateLEb a b = true ∨ dateLEb b a = true := by
  unfold dateLEb dateLtB
  by_cases h : dateLtP b a
  · right
    have h2 : ¬ dateLtP a b := fun hq => dateLtP_asymm hq h
    simp [h2]
  · left
    simp [h]

/-- The non-strict date order is transitive. -/
theorem dateLEb_trans {a b c : Date} (h1 : dateLEb a b = true)
    (h2 : dateLEb b c = true) : dateLEb a c = true := by
  unfold dateLEb dateLtB at h1 h2 ⊢
  simp only [Bool.not_eq_true', decide_eq_false_iff_not] at h1 h2 ⊢
  unfold dateLtP at h1 h2 ⊢
  omega

instance : IsTotal (String × Date) keyLE := by
  constructor
  intro a b
  unfold keyLE keyLEb
  by_cases h1 : strLtB a.1.data b.1.data = true
  · left
    rw [if_pos h1]
  · by_cases h2 : strLtB b.1.data a.1.data = true
    · right
      rw [if_pos h2]
    · rw [Bool.not_eq_true] at h1 h2
      rcases dateLEb_total a.2 b.2 with h | h
      · left
        simp [h1, h2, h]
      · right
        simp [h1, h2, h]

instance : IsTrans (String × Date) keyLE := by
  constructor
  intro a b c hab hbc
  unfold keyLE keyLEb at hab hbc ⊢
  by_cases h1 : strLtB a.1.data b.1.data = true
  · by_cases h2 : strLtB b.1.data c.1.data = true
    · rw [if_pos (strLtB_trans h1 h2)]
    · by_cases h3 : strLtB c.1.data b.1.data = true
      · rw [Bool.not_eq_true] at h2
        simp [h2, h3] at hbc
      · rw [Bool.not_eq_true] at h2 h3
        have he : b.1.data = c.1.data := strLtB_conn h2 h3
        rw [← he, if_pos h1]
  · by_cases h1b : strLtB b.1.data a.1.data = true
    · rw [Bool.not_eq_true] at h1
      simp [h1, h1b] at hab
    · rw [Bool.not_eq_true] at h1 h1b
      have hab2 : a.1.data = b.1.data := strLtB_conn h1 h1b
      by_cases h2 : strLtB b.1.data c.1.data = true
      · rw [hab2, if_pos h2]
      · by_cases h3 : strLtB c.1.data b.1.data = true
        · rw [Bool.not_eq_true] at h2
          simp [h2, h3] at hbc
        · rw [Bool.not_eq_true] at h2 h3
          have hbc2 : b.1.data = c.1.data := strLtB_conn h2 h3
          simp [h1, h1b] at hab
          simp [h2, h3] at hbc
          rw [hab2, hbc2, strLtB_irrefl]
          simp
          exact dateLEb_trans hab hbc

/-- Appending a row of the same partner updates its previous-ctr value. -/
theorem prevCtrOf_append_same {seen : List Metric} {m : Metric} {p : String}
    (h : m.partner = p) : prevCtrOf (seen ++ [m]) p = some m.ctr := by
  unfold prevCtrOf
  rw [List.filter_append]
  have h1 : [m].filter (fun y => decide (y.partner = p)) = [m] := by
    simp [h]
  rw [h1, List.getLast?_concat]
  rfl

/-- Appending a row of another partner leaves previous-ctr values alone. -/
theorem prevCtrOf_append_other {seen : List Metric} {m : Metric} {p : String}
    (h : ¬ m.partner = p) : prevCtrOf (seen ++ [m]) p = prevCtrOf seen p := by
  unfold prevCtrOf
  rw [List.filter_append]
  have h1 : [m].filter (fun y => decide (y.partner = p)) = [] := by
    simp [h]
  rw [h1, List.append_nil]

/-- One partner's rows of the shifted frame are exactly that partner's
subsequence paired with its immediate predecessors, seeded by the last
ctr of that partner among the rows already above the cursor. -/
theorem withPrevAux_filter (p : String) :
    ∀ (daily seen : List Metric),
      (withPrevAux seen daily).filter (fun x => decide (x.1.partner = p))
        = seqWithPrevAux (prevCtrOf seen p)
            (daily.filter (fun m => decide (m.partner = p))) := by
  intro daily
  induction daily with
  | nil => intro seen; rfl
  | cons m rest ih =>
    intro seen
    rw [withPrevAux]
    by_cases hp : m.partner = p
    · rw [hp]
      simp only [List.filter_cons, hp, decide_True, if_true]
      rw [seqWithPrevAux, ih (seen ++ [m]), prevCtrOf_append_same hp]
    · simp only [List.filter_cons, hp, decide_False, if_false]
      rw [ih (seen ++ [m]), prevCtrOf_append_other hp]
      simp

/-- Within one partner, the sort-key order is the date order. -/
theorem keyLE_same_partner {k1 k2 : String × Date} (h : k1.1 = k2.1)
    (hle : keyLE k1 k2) : dateLEb k1.2 k2.2 = true := by
  unfold keyLE keyLEb at hle
  rw [h, strLtB_irrefl] at hle
  simpa using hle

/-- C4: for every partner, the `prev_ctr` column restricted to that
partner's rows pairs each row with the ctr of the immediately preceding
row present in that partner's subsequence of `daily` — the first row of
the subsequence gets NaN (and a NaN pct_change never yields a drop
event), every later row gets the ctr of its immediate predecessor in the
partner's sequence, spanning any calendar gap and independent of other
partners' rows; and in the daily frame produced by the pipeline each
partner's subsequence is date-ascending. -/
theorem C4_prev_row_semantics :
    (∀ (daily : List Metric) (p : String),
        (withPrev daily).filter (fun x => decide (x.1.partner = p))
          = seqWithPrev (daily.filter (fun m => decide (m.partner = p))))
    ∧ (∀ (m : Metric) (ms : List Metric),
        (seqWithPrev (m :: ms)).head? = some (m, none))
    ∧ (∀ c : ℚ, drop_level (pct_change none c) = "")
    ∧ (∀ (rows : List CRow) (p : String),
        (partnerMetrics (dailyOf rows) p).Pairwise
          (fun a b => dateLEb a.date b.date = true)) := by
  refine ⟨?_, fun m ms => rfl, fun c => rfl, ?_⟩
  · intro daily p
    unfold withPrev seqWithPrev
    rw [withPrevAux_filter p daily []]
    rfl
  · intro rows p
    unfold partnerMetrics dailyOf aggregateDaily
    rw [List.filter_map]
    rw [List.pairwise_map]
    have hs : List.Pairwise keyLE
        (List.insertionSort keyLE (keysOf (load_filter rows))) :=
      List.sorted_insertionSort keyLE _
    have hf := hs.filter
      ((fun m => decide (m.partner = p)) ∘ groupMetric (load_filter rows))
    refine hf.imp_of_mem ?_
    intro a b ha hb hr
    have hap : a.1 = p := by
      have h2 := (List.mem_filter.mp ha).2
      simpa using h2
    have hbp : b.1 = p := by
      have h2 := (List.mem_filter.mp hb).2
      simpa using h2
    exact keyLE_same_partner (by rw [hap, hbp]) hr
